import Mathlib

/-!
# Verification of the Idea-bank CSV ingestion and filtering core

Shallow embedding of the repository's data pipeline:

* `processData` (App component, first variant): CSV text → validated `Idea`
  records, including the hand-rolled quoted-field tokenizer, row validation
  (id / submit date / total savings), and the categorical-text normalization
  routine.
* `filteredData`, `totalSavings`, `avgSavings` (Dashboard component):
  the filter and aggregation layer over the parsed records.

Modelling conventions:

* JavaScript strings are modelled as `String` / `List Char`; the ASCII
  fragment of `toLowerCase` / `toUpperCase` / `trim` / `\w` / `\s` is
  embedded (all data handled by the app is ASCII).
* JavaScript numbers are modelled as `JsNum`: `NaN`, the two infinities and
  finite values as exact rationals.  Floating-point rounding is not
  modelled; on the magnitudes appearing in the claims the arithmetic is
  exact.
* `new Date(string)` is modelled for the ISO `YYYY-MM-DD` date strings this
  application feeds it (spreadsheet submit dates and the `<input type=date>`
  filter bounds); other, implementation-defined, date formats are out of
  the model and map to an invalid date.  Timestamps are epoch milliseconds
  (`Int`); the runtime timezone is taken to be UTC.
-/

/-! ## Character helpers (ASCII fragment of the JS string primitives) -/

/-- The whitespace class recognised by `String.prototype.trim`, the `\s`
regex class and `parseFloat` leading-space skipping (ASCII fragment). -/
def isSpaceJS (c : Char) : Bool :=
  c = ' ' || c = '\t' || c = '\n' || c = '\r' || c = '\x0b' || c = '\x0c'

/-- An ASCII decimal digit (`0`-`9`). -/
def isDigitJS (c : Char) : Bool :=
  decide (48 ≤ c.toNat ∧ c.toNat ≤ 57)

/-- The regex word-character class `\w`, i.e. `[A-Za-z0-9_]`. -/
def wordChar (c : Char) : Bool :=
  decide ((65 ≤ c.toNat ∧ c.toNat ≤ 90) ∨ (97 ≤ c.toNat ∧ c.toNat ≤ 122) ∨
    (48 ≤ c.toNat ∧ c.toNat ≤ 57) ∨ c = '_')

/-- Embedding of `String.prototype.toLowerCase` on one character (ASCII fragment). -/
def lowerChar (c : Char) : Char :=
  if 65 ≤ c.toNat ∧ c.toNat ≤ 90 then Char.ofNat (c.toNat + 32) else c

/-- Embedding of `String.prototype.toUpperCase` on one character (ASCII fragment). -/
def upperChar (c : Char) : Char :=
  if 97 ≤ c.toNat ∧ c.toNat ≤ 122 then Char.ofNat (c.toNat - 32) else c

/-! ## List-of-characters helpers -/

/-- Embedding of `String.prototype.trim` (ASCII whitespace). -/
def jsTrim (cs : List Char) : List Char :=
  ((cs.dropWhile isSpaceJS).reverse.dropWhile isSpaceJS).reverse

/-- Embedding of `trim` on `String`. -/
def jsTrimS (s : String) : String := ⟨jsTrim s.data⟩

/-- Embedding of `s.split(c)` for a single-character separator: plain splitting, empty
pieces preserved, `"".split(c) = [""]`. -/
def jsSplitChar (sep : Char) : List Char → List Char → List (List Char)
  | cur, [] => [cur.reverse]
  | cur, c :: cs =>
    if c = sep then cur.reverse :: jsSplitChar sep [] cs
    else jsSplitChar sep (c :: cur) cs

/-- Embedding of `s.split(re)` for a character-class regex with `+`: runs of separator
characters are one separator; a leading or trailing run contributes a
leading/trailing empty piece (JS `String.prototype.split` semantics).
`inSep` records whether the previous character was part of a separator run;
`cur` is the reversed accumulator of the current piece. -/
def splitRunsGo (sep : Char → Bool) : Bool → List Char → List Char → List (List Char)
  | _, cur, [] => [cur.reverse]
  | inSep, cur, c :: cs =>
    if sep c then
      if inSep then splitRunsGo sep true cur cs
      else cur.reverse :: splitRunsGo sep true [] cs
    else splitRunsGo sep false (c :: cur) cs

/-- Splitting in the style of `s.split(/[\s/]+/)`: on runs of characters satisfying `sep`. -/
def splitRuns (sep : Char → Bool) (cs : List Char) : List (List Char) :=
  splitRunsGo sep false [] cs

/-- Embedding of `words.join(' ')` at the character level. -/
def joinSpaces : List (List Char) → List Char
  | [] => []
  | [w] => w
  | w :: ws => w ++ ' ' :: joinSpaces ws

/-- Embedding of `.replace(/\b\w/g, c => c.toUpperCase())`: uppercase every word
character that sits at a word boundary, i.e. whose predecessor is absent or
is not a word character.  `atB` holds when the current position is such a
boundary. -/
def boundaryUpGo : Bool → List Char → List Char
  | _, [] => []
  | atB, c :: cs =>
    (if wordChar c && atB then upperChar c else c) :: boundaryUpGo (!wordChar c) cs

/-- The final capitalization pass of the normalization routine. -/
def boundaryUp (cs : List Char) : List Char := boundaryUpGo true cs

/-! ## Quoted-field tokenizer (`processData`, per-row loop)

Scans left to right with an `inQuotes` flag: a `""` pair emits a literal
quote (checked first, and regardless of `inQuotes`, as in the source), a
single `"` toggles `inQuotes`, an unquoted `,` ends the field, anything
else accumulates.  Fields are trimmed as they are pushed. -/

def tokenizeGo : Bool → List Char → List Char → List (List Char)
  | _, cur, [] => [cur.reverse]
  | iq, cur, '"' :: '"' :: rest => tokenizeGo iq ('"' :: cur) rest
  | iq, cur, '"' :: rest => tokenizeGo (!iq) cur rest
  | iq, cur, ',' :: rest =>
    if iq then tokenizeGo iq (',' :: cur) rest
    else cur.reverse :: tokenizeGo iq [] rest
  | iq, cur, c :: rest => tokenizeGo iq (c :: cur) rest

/-- Tokenize one data row into its (trimmed) field values. -/
def tokenizeLine (line : List Char) : List String :=
  (tokenizeGo false [] line).map (fun f => (⟨jsTrim f⟩ : String))

/-- Embedding of `h.trim().replace(/^"|"$/g, '')` applied to a header cell: strip one
leading and one trailing double quote. -/
def stripOuterQuotes (cs : List Char) : List Char :=
  let a := match cs with
    | '"' :: rest => rest
    | other => other
  match a.reverse with
  | '"' :: rest => rest.reverse
  | _ => a

/-! ## JavaScript numbers and `parseFloat` -/

/-- A JavaScript number as far as this pipeline observes it: `NaN`, the two
infinities, or an exact finite value. -/
inductive JsNum where
  | nan : JsNum
  | inf : JsNum
  | neginf : JsNum
  | num (q : ℚ) : JsNum
  deriving DecidableEq

/-- Value of a digit string (most significant first). -/
def digitsVal (ds : List Char) : ℕ :=
  ds.foldl (fun a c => a * 10 + (c.toNat - 48)) 0

/-- Signed exponent after `e`/`E` in a number literal; an absent digit
sequence contributes exponent 0 (as `parseFloat` then stops before the
`e`, which leaves the value unchanged). -/
def expOf (t : List Char) : Int :=
  match t with
  | '+' :: u => (digitsVal (u.takeWhile isDigitJS) : Int)
  | '-' :: u => -(digitsVal (u.takeWhile isDigitJS) : Int)
  | u => (digitsVal (u.takeWhile isDigitJS) : Int)

/-- After the integer digits: the fractional digits (following a `.`) and
what remains after them. -/
def fracAndRest : List Char → List Char × List Char
  | '.' :: t => (t.takeWhile isDigitJS, t.dropWhile isDigitJS)
  | other => ([], other)

/-- Exponent contributed by an `e`/`E` part at the given position (0 when
there is none). -/
def expAt : List Char → Int
  | 'e' :: t => expOf t
  | 'E' :: t => expOf t
  | _ => 0

/-- Optional sign at the head of the literal: negativity flag and the
remaining characters. -/
def signSplit : List Char → Bool × List Char
  | '+' :: rest => (false, rest)
  | '-' :: rest => (true, rest)
  | rest => (false, rest)

/-- Embedding of `parseFloat` after the optional sign: the literal `Infinity`, or the
longest `digits [. digits] [e [sign] digits]` numeric literal at the head
of the input; no digits at all give `NaN`.  The denoted rational
`(ip.fp) * 10 ^ ex` is assembled with one `mkRat`. -/
def parseUnsigned (neg : Bool) (cs : List Char) : JsNum :=
  if cs.take 8 = "Infinity".data then (if neg then JsNum.neginf else JsNum.inf)
  else
    let ip := cs.takeWhile isDigitJS
    let fr := fracAndRest (cs.dropWhile isDigitJS)
    if ip.isEmpty && fr.1.isEmpty then JsNum.nan
    else
      let ex : Int := expAt fr.2
      let m : Int := ((digitsVal ip * 10 ^ fr.1.length + digitsVal fr.1 : ℕ) : Int)
      let m := if neg then -m else m
      if 0 ≤ ex then JsNum.num (mkRat (m * 10 ^ ex.toNat) (10 ^ fr.1.length))
      else JsNum.num (mkRat m (10 ^ fr.1.length * 10 ^ (-ex).toNat))

/-- ECMAScript `parseFloat` at the character-list level: skip leading
whitespace, read an optional sign, then the longest numeric-literal head;
`NaN` when there is none. -/
def parseFloatL (cs : List Char) : JsNum :=
  let sr := signSplit (cs.dropWhile isSpaceJS)
  parseUnsigned sr.1 sr.2

/-- ECMAScript `parseFloat`. -/
def parseFloat (s : String) : JsNum := parseFloatL s.data

/-- Embedding of `isNaN(v)`. -/
def jsIsNaN : JsNum → Bool
  | JsNum.nan => true
  | _ => false

/-- Embedding of `v <= 0` (false on `NaN`). -/
def jsLeZero : JsNum → Bool
  | JsNum.nan => false
  | JsNum.inf => false
  | JsNum.neginf => true
  | JsNum.num q => decide (q ≤ 0)

/-- Embedding of `v > 0` (false on `NaN`): strict positivity as JS compares it. -/
def jsPos : JsNum → Bool
  | JsNum.nan => false
  | JsNum.inf => true
  | JsNum.neginf => false
  | JsNum.num q => decide (0 < q)

/-- JS `+` on numbers. -/
def jsAdd : JsNum → JsNum → JsNum
  | JsNum.nan, _ => JsNum.nan
  | _, JsNum.nan => JsNum.nan
  | JsNum.inf, JsNum.neginf => JsNum.nan
  | JsNum.neginf, JsNum.inf => JsNum.nan
  | JsNum.inf, _ => JsNum.inf
  | _, JsNum.inf => JsNum.inf
  | JsNum.neginf, _ => JsNum.neginf
  | _, JsNum.neginf => JsNum.neginf
  | JsNum.num a, JsNum.num b => JsNum.num (a + b)

/-- JS `/` on numbers. -/
def jsDiv : JsNum → JsNum → JsNum
  | JsNum.nan, _ => JsNum.nan
  | _, JsNum.nan => JsNum.nan
  | JsNum.inf, JsNum.inf => JsNum.nan
  | JsNum.inf, JsNum.neginf => JsNum.nan
  | JsNum.neginf, JsNum.inf => JsNum.nan
  | JsNum.neginf, JsNum.neginf => JsNum.nan
  | JsNum.inf, JsNum.num b => if 0 ≤ b then JsNum.inf else JsNum.neginf
  | JsNum.neginf, JsNum.num b => if 0 ≤ b then JsNum.neginf else JsNum.inf
  | JsNum.num _, JsNum.inf => JsNum.num 0
  | JsNum.num _, JsNum.neginf => JsNum.num 0
  | JsNum.num a, JsNum.num b =>
    if b = 0 then (if a = 0 then JsNum.nan else if 0 < a then JsNum.inf else JsNum.neginf)
    else JsNum.num (a / b)

example : tokenizeLine "A,\"B, C\",\"D\"\"E\",F".data = ["A", "B, C", "D\"E", "F"] := by decide

example : parseFloat "100 USD" = JsNum.num 100 := by decide

example : parseFloat "$..." = JsNum.nan := by decide

example : parseFloat "Infinity" = JsNum.inf := by decide

example : parseFloat "-5" = JsNum.num (-5) := by decide

example : parseFloat "1234.56" = JsNum.num (mkRat 123456 100) := by decide

example : parseFloat "1.5e2" = JsNum.num 150 := by decide

/-! ## Dates: `new Date(string)` on ISO `YYYY-MM-DD` input -/

/-- Gregorian leap year. -/
def isLeapYear (y : Int) : Bool := (y % 4 == 0 && y % 100 != 0) || y % 400 == 0

/-- Length of month `m` of year `y` (0 for an out-of-range month). -/
def monthLen (y m : Int) : Int :=
  if m = 1 ∨ m = 3 ∨ m = 5 ∨ m = 7 ∨ m = 8 ∨ m = 10 ∨ m = 12 then 31
  else if m = 4 ∨ m = 6 ∨ m = 9 ∨ m = 11 then 30
  else if m = 2 then (if isLeapYear y then 29 else 28)
  else 0

/-- The `YYYY-MM-DD` components denote a real calendar date. -/
def validYMD (y m d : Int) : Bool :=
  1 ≤ m && m ≤ 12 && 1 ≤ d && d ≤ monthLen y m

/-- Days from the civil epoch 1970-01-01 to `y-m-d` (proleptic Gregorian,
the standard days-from-civil computation). -/
def epochDay (y m d : Int) : Int :=
  let y' := y - (if m ≤ 2 then 1 else 0)
  let era := Int.fdiv y' 400
  let yoe := y' - era * 400
  let mp := m + (if 2 < m then -3 else 9)
  let doy := Int.fdiv (153 * mp + 2) 5 + d - 1
  let doe := yoe * 365 + Int.fdiv yoe 4 - Int.fdiv yoe 100 + doy
  era * 146097 + doe - 719468

/-- Epoch milliseconds of UTC midnight of `y-m-d`. -/
def epochMs (y m d : Int) : Int := epochDay y m d * 86400000

/-- Embedding of `new Date(s).getTime()` restricted to the ISO `YYYY-MM-DD` strings this
application produces (submit-date cells and date-input filter bounds):
`none` models an invalid date (`NaN` time value), in particular for
out-of-range components, as ECMAScript prescribes for the Date Time String
Format.  Other, implementation-defined, input formats are outside the
model. -/
def parseDate (s : String) : Option Int :=
  match s.data with
  | [y1, y2, y3, y4, '-', m1, m2, '-', d1, d2] =>
    if isDigitJS y1 && isDigitJS y2 && isDigitJS y3 && isDigitJS y4 &&
       isDigitJS m1 && isDigitJS m2 && isDigitJS d1 && isDigitJS d2 then
      let y : Int := (digitsVal [y1, y2, y3, y4] : ℕ)
      let m : Int := (digitsVal [m1, m2] : ℕ)
      let d : Int := (digitsVal [d1, d2] : ℕ)
      if validYMD y m d then some (epochMs y m d) else none
    else none
  | _ => none

/-! ## The `Idea` record and row parsing -/

/-- The domain record produced by `processData` (the `Idea` type of the
application); `date` is the epoch-millisecond time value of the parsed
`Date`. -/
structure Idea where
  id : String
  title : String
  subsystem : String
  region : String
  platform : String
  plant : String
  status : String
  date : Int
  submitter : String
  scopingLeader : String
  savings : JsNum
  link : String
  deriving DecidableEq

/-- Embedding of the `row[header] = values[index]` assignment loop followed by property
lookup: the value of `key` is the cell at the last position whose header
equals `key` (later assignments overwrite earlier ones), `none` when the
key never occurs or its position is beyond the tokenized values
(JS `undefined` in both cases). -/
def rowGet (headers : List String) (values : List String) (key : String) : Option String :=
  (((headers.enum.map (fun p => (p.2, values[p.1]?))).reverse.find?
    (fun q => q.1 == key)).bind Prod.snd)

/-- Embedding of `val || dflt` for a possibly-undefined string: the default replaces
`undefined` and the empty string (the falsy strings). -/
def jsOrDefault (v : Option String) (dflt : String) : String :=
  match v with
  | none => dflt
  | some s => if s = "" then dflt else s

/-- Embedding of `s.replace(/[$,]/g, '')`. -/
def stripDollarComma (s : String) : String :=
  ⟨s.data.filter (fun c => !(c = '$' || c = ','))⟩

/-- The separator class of the normalization split, the regex `[\\s/]`. -/
def isSepWS (c : Char) : Bool := isSpaceJS c || c = '/'

/-- Embedding of `w.charAt(0).toUpperCase() + w.slice(1)`: uppercase the first
character of a word (the empty word stays empty). -/
def capFirst : List Char → List Char
  | [] => []
  | c :: cs => upperChar c :: cs

/-- The categorical-field normalization routine of `processData`:
`undefined`/empty/all-blank input gives `"Unknown"`; otherwise trim,
lowercase, split on runs of whitespace and `/`, uppercase each piece's
first character, join with single spaces, then uppercase every
word-boundary character. -/
def jsNormalize (v : Option String) : String :=
  match v with
  | none => "Unknown"
  | some s =>
    if s = "" then "Unknown"
    else
      let t := jsTrim s.data
      if t = [] then "Unknown"
      else
        ⟨boundaryUp (joinSpaces
          ((splitRuns isSepWS (t.map lowerChar)).map capFirst))⟩

/-- Variant of `jsNormalize` with the final `.replace(/\b\w/g, ...)` pass removed;
used to settle whether that pass is a no-op. -/
def jsNormalizeNoFinal (v : Option String) : String :=
  match v with
  | none => "Unknown"
  | some s =>
    if s = "" then "Unknown"
    else
      let t := jsTrim s.data
      if t = [] then "Unknown"
      else
        ⟨joinSpaces
          ((splitRuns isSepWS (t.map lowerChar)).map capFirst)⟩

/-- Validation and record construction for one row, abstracted over the
field lookup function `get` (instantiated with `rowGet headers values`):
reject when the id, submit-date or total-savings cell is undefined or
blank, when the savings cell (after `$`/`,` stripping) is `NaN` or `≤ 0`,
or when the submit date does not parse; otherwise build the `Idea`. -/
def parseRowFrom (get : String → Option String) : Option Idea :=
  match (get "IDEA BANK ID").map jsTrimS, (get "SUBMIT DATE").map jsTrimS,
        (get "TOTAL SAVINGS").map jsTrimS with
  | some id, some rawDate, some rawSavings =>
    if id = "" ∨ rawDate = "" ∨ rawSavings = "" then none
    else
      let savings := parseFloat (stripDollarComma rawSavings)
      if jsIsNaN savings || jsLeZero savings then none
      else
        match parseDate rawDate with
        | none => none
        | some t =>
          some {
            id := id
            title := jsTrimS (jsOrDefault (get "PROJECT TITLE") "Untitled Project")
            subsystem := jsNormalize (get "SUBSYSTEM")
            region := jsNormalize (get "REGION")
            platform := jsNormalize (get "PLATFORM")
            plant := jsNormalize (get "PLANT")
            status := jsNormalize (get "FINAL STATUS")
            date := t
            submitter := jsTrimS (jsOrDefault (get "REQUESTER EMAIL") "system@enterprise.com")
            scopingLeader := jsNormalize (get "SCOPING LEADER")
            savings := savings
            link := jsTrimS (jsOrDefault (get "LINK") "") }
  | _, _, _ => none

/-- Parse one tokenized row against the header names. -/
def parseRow (headers : List String) (values : List String) : Option Idea :=
  parseRowFrom (rowGet headers values)

/-- The lines of the CSV text: `csvText.split('\n')`. -/
def linesOf (csv : String) : List (List Char) := jsSplitChar '\n' [] csv.data

/-- The header row: `lines[0].split(',').map(h => h.trim().replace(/^"|"$/g, ''))`. -/
def headersOf (csv : String) : List String :=
  (jsSplitChar ',' [] ((linesOf csv).headD [])).map
    (fun h => (⟨stripOuterQuotes (jsTrim h)⟩ : String))

/-- The parser entry point `processData`: split into lines, bail out to
`[]` below two lines, read the headers from the first line, then tokenize,
validate and build a record from every non-blank data line, dropping
rejected rows (`.map(...)` to nullable records followed by the
`!== null` filter is embedded as `filterMap`). -/
def processData (csvText : String) : List Idea :=
  let lines := linesOf csvText
  if lines.length < 2 then []
  else
    ((lines.drop 1).filter (fun l => !(jsTrim l).isEmpty)).filterMap
      (fun line => parseRow (headersOf csvText) (tokenizeLine line))

/-! ## Dashboard: filtering and aggregation (Dashboard component) -/

/-- The user-controlled filter configuration: allowed-value lists for
subsystem, platform and status, and the `YYYY-MM-DD` bounds of the
submission range. -/
structure FilterCriteria where
  subsystems : List String
  platforms : List String
  statuses : List String
  startDate : String
  endDate : String

/-- Embedding of `end.setHours(23, 59, 59, 999)` on a time value, in a UTC runtime:
move to the last millisecond of the day. -/
def endOfDayMs (t : Int) : Int := t - t.emod 86400000 + 86399999

/-- The `filteredData` computation of the Dashboard: keep the records whose
date lies between `new Date(startDate)` and the end of day of
`new Date(endDate)` and whose subsystem / platform / status is allowed,
where an empty allowed list means no restriction.  A comparison against an
invalid date (`NaN`) is false, so an unparseable bound rejects every
record. -/
def filteredData (data : List Idea) (filters : FilterCriteria) : List Idea :=
  let start := parseDate filters.startDate
  let stop := (parseDate filters.endDate).map endOfDayMs
  data.filter (fun item =>
    (match start with
      | some s => decide (s ≤ item.date)
      | none => false) &&
    (match stop with
      | some e => decide (item.date ≤ e)
      | none => false) &&
    (filters.subsystems.length == 0 || filters.subsystems.contains item.subsystem) &&
    (filters.platforms.length == 0 || filters.platforms.contains item.platform) &&
    (filters.statuses.length == 0 || filters.statuses.contains item.status))

/-- Embedding of `filteredData.reduce((a, b) => a + b.savings, 0)`. -/
def totalSavings (l : List Idea) : JsNum :=
  l.foldl (fun a b => jsAdd a b.savings) (JsNum.num 0)

/-- Embedding of `filteredData.length ? totalSavings / filteredData.length : 0`. -/
def avgSavings (l : List Idea) : JsNum :=
  if l.length ≠ 0 then jsDiv (totalSavings l) (JsNum.num l.length) else JsNum.num 0

example : parseDate "2024-03-01" = some 1709251200000 := by decide

example : parseDate "2024-02-30" = none := by decide

example : jsNormalize (some "chassis/body") = "Chassis Body" := by decide

example : jsNormalize (some "  PLASTICS  ") = "Plastics" := by decide

example : jsNormalize (some "foo-bar") = "Foo-Bar" := by decide

example : jsNormalizeNoFinal (some "foo-bar") = "Foo-bar" := by decide

example :
    (processData "IDEA BANK ID,SUBMIT DATE,TOTAL SAVINGS\nA1,2024-03-01,100\n,2024-03-02,200\nA3,2024-03-03,300").map Idea.id
      = ["A1", "A3"] := by decide

example :
    (parseRow ["IDEA BANK ID", "SUBMIT DATE", "TOTAL SAVINGS"]
        ["X1", "2024-03-01", "Infinity"]).map Idea.savings = some JsNum.inf := by decide

/-! ## Claim C2: the quoted-field tokenizer on the spec's example line -/

/-- C2: scanning left to right with the `inQuotes` flag, a doubled quote
as an escaped literal quote, a single quote as a toggle, and unquoted
commas as separators (fields trimmed, final accumulator pushed), the line
`A,"B, C","D""E",F` tokenizes to the four fields `A`, `B, C`, `D"E`, `F`. -/
theorem claim2_tokenizer_example :
    tokenizeLine "A,\"B, C\",\"D\"\"E\",F".data = ["A", "B, C", "D\"E", "F"] := by
  decide

/-! ## Claim C5: normalization examples -/

/-- C5: the normalization routine maps `chassis/body` to `Chassis Body`,
the empty string to `Unknown`, and `  PLASTICS  ` to `Plastics`. -/
theorem claim5_normalize_examples :
    jsNormalize (some "chassis/body") = "Chassis Body" ∧
    jsNormalize (some "") = "Unknown" ∧
    jsNormalize (some "  PLASTICS  ") = "Plastics" := by
  decide

/-! ## Claim C8: totality of the parser entry point -/

/-- C8: `processData` is a total function of the input string (it is
defined for every `String` and always returns an `Idea` list — the
embedding needs no error monad anywhere in the pipeline), and an input
with fewer than two lines, such as the empty string or one line of
non-CSV text, yields the empty list. -/
theorem claim8_total_and_short_input_empty (csv : String)
    (h : (linesOf csv).length < 2) : processData csv = [] := by
  simp [processData, h]

/-- Witness for C8 at a one-line, non-CSV input. -/
theorem claim8_witness :
    (linesOf "just some plain text").length < 2 ∧
    processData "just some plain text" = [] :=
  ⟨by decide, claim8_total_and_short_input_empty "just some plain text" (by decide)⟩

/-! ## Claim C3: savings validation

The code rejects a row when the stripped savings cell parses to `NaN` or
to a value `≤ 0`; it does **not** reject a non-finite positive value: the
cell `Infinity` parses to `Infinity`, passes both checks and is accepted. -/

/-- C3 (counterexample to the claim as stated): a row whose total-savings
cell is `Infinity` — non-finite after stripping — is *not* rejected: it
produces a record, with `Infinity` as its savings value. -/
theorem claim3_counterexample :
    (parseRow ["IDEA BANK ID", "SUBMIT DATE", "TOTAL SAVINGS"]
        ["X1", "2024-03-01", "Infinity"]).map Idea.savings = some JsNum.inf ∧
    parseRow ["IDEA BANK ID", "SUBMIT DATE", "TOTAL SAVINGS"]
        ["X1", "2024-03-01", "Infinity"] ≠ none := by
  decide

/-- C3 (amended): a data row is rejected whenever its total-savings cell,
after removing `$` and `,` characters, fails to parse as a number (`NaN`)
or parses to a value `≤ 0` — in particular for `$0` and `-5`; a non-finite
positive value is *accepted*, so non-finiteness is not a rejection
ground. -/
theorem claim3_nonpositive_savings_rejected (hs vs : List String) (sstr : String)
    (h : rowGet hs vs "TOTAL SAVINGS" = some sstr)
    (hbad : (jsIsNaN (parseFloat (stripDollarComma (jsTrimS sstr))) ||
             jsLeZero (parseFloat (stripDollarComma (jsTrimS sstr)))) = true) :
    parseRow hs vs = none := by
  unfold parseRow parseRowFrom
  rw [h]
  rcases h1 : rowGet hs vs "IDEA BANK ID" with _ | i
  · simp
  rcases h2 : rowGet hs vs "SUBMIT DATE" with _ | d
  · simp
  simp only [Option.map_some']
  by_cases hc : (jsTrimS i = "" ∨ jsTrimS d = "" ∨ jsTrimS sstr = "")
  · simp [hc]
  · simp [hc, hbad]

/-- Witness for C3: the spec's two example rows, `TOTAL SAVINGS = "$0"`
and `TOTAL SAVINGS = "-5"`, are both rejected. -/
theorem claim3_witness :
    parseRow ["IDEA BANK ID", "SUBMIT DATE", "TOTAL SAVINGS"]
      ["X2", "2024-03-01", "$0"] = none ∧
    parseRow ["IDEA BANK ID", "SUBMIT DATE", "TOTAL SAVINGS"]
      ["X3", "2024-03-01", "-5"] = none :=
  ⟨claim3_nonpositive_savings_rejected _ _ "$0" (by decide) (by decide),
   claim3_nonpositive_savings_rejected _ _ "-5" (by decide) (by decide)⟩

/-! ## Claim C10: surplus trailing fields are ignored -/

/-- Helper: the row bag built from the tokenized values reads only the
first `headers.length` positions. -/
theorem rowGet_take (headers values : List String) :
    rowGet headers values = rowGet headers (values.take headers.length) := by
  funext key
  unfold rowGet
  have hmap : headers.enum.map (fun p => (p.2, values[p.1]?)) =
      headers.enum.map (fun p => (p.2, (values.take headers.length)[p.1]?)) := by
    apply List.map_congr_left
    intro p hp
    have hg : headers[p.1]? = some p.2 := List.mem_enum_iff_getElem?.mp hp
    obtain ⟨hlt, -⟩ := List.getElem?_eq_some_iff.mp hg
    rw [List.getElem?_take_of_lt hlt]
  rw [hmap]

/-- C10: a data row that tokenizes to more fields than there are headers
produces the same record as the row truncated to the header count — the
header-to-value mapping is built only from the first `headers.length`
positions, so surplus trailing fields are silently ignored. -/
theorem claim10_surplus_fields_ignored (headers values : List String) :
    parseRow headers values = parseRow headers (values.take headers.length) := by
  unfold parseRow
  rw [rowGet_take]

/-! ## Claim C6: the filter operation -/

/-- Spec-side predicate: an empty allowed-value list means "no
restriction", otherwise the value must be in the list. -/
def specAllowed (allowed : List String) (v : String) : Prop :=
  allowed = [] ∨ v ∈ allowed

instance (allowed : List String) (v : String) : Decidable (specAllowed allowed v) := by
  unfold specAllowed; infer_instance

/-- Helper: the code's empty-or-member test agrees with `specAllowed`. -/
theorem allowed_bool_eq (l : List String) (v : String) :
    (l.length == 0 || l.contains v) = decide (specAllowed l v) := by
  rw [Bool.eq_iff_iff, Bool.or_eq_true, decide_eq_true_eq]
  unfold specAllowed
  rw [beq_iff_eq, List.length_eq_zero, List.elem_iff]

/-- Spec-side filter predicate, from the spec's words: date within
`[startDate, endDate]` inclusive with end-of-day boundary on the end date,
and each of subsystem / platform / status in its allowed set or that set
empty, all conjoined. -/
def specFilterPred (s e : Int) (f : FilterCriteria) (i : Idea) : Prop :=
  s ≤ i.date ∧ i.date ≤ endOfDayMs e ∧
  specAllowed f.subsystems i.subsystem ∧
  specAllowed f.platforms i.platform ∧
  specAllowed f.statuses i.status

instance (s e : Int) (f : FilterCriteria) (i : Idea) : Decidable (specFilterPred s e f i) := by
  unfold specFilterPred; infer_instance

/-- C6: when both date bounds parse, `filteredData` returns exactly the
records satisfying the conjunction of the date-range predicate (inclusive,
end-of-day boundary on the end date) and the three default-open
allowed-set predicates — as a `filter` by the spec-side predicate, which
preserves order and multiplicity. -/
theorem claim6_filter_characterization (data : List Idea) (f : FilterCriteria)
    (s e : Int) (hs : parseDate f.startDate = some s)
    (he : parseDate f.endDate = some e) :
    filteredData data f = data.filter (fun i => decide (specFilterPred s e f i)) := by
  unfold filteredData
  rw [hs, he]
  apply List.filter_congr
  intro i _
  simp only [Option.map_some']
  rw [allowed_bool_eq, allowed_bool_eq, allowed_bool_eq, Bool.eq_iff_iff]
  simp [specFilterPred, and_assoc]

/-- Concrete record used by the C6 witness. -/
def ideaW : Idea :=
  { id := "W1", title := "T", subsystem := "Chassis", region := "Na",
    platform := "Fsr", plant := "P", status := "Approved",
    date := epochMs 2024 6 15, submitter := "u@example.com",
    scopingLeader := "L", savings := JsNum.num 100, link := "" }

/-- Concrete criteria used by the C6 witness: empty allowed sets
(default-open) and the 2024 calendar year. -/
def critW : FilterCriteria :=
  { subsystems := [], platforms := [], statuses := [],
    startDate := "2024-01-01", endDate := "2024-12-31" }

/-- Witness for C6 at concrete data and criteria. -/
theorem claim6_witness :
    parseDate "2024-01-01" = some 1704067200000 ∧
    parseDate "2024-12-31" = some 1735603200000 ∧
    filteredData [ideaW] critW =
      List.filter (fun i => decide (specFilterPred 1704067200000 1735603200000 critW i))
        [ideaW] :=
  ⟨by decide, by decide,
   claim6_filter_characterization [ideaW] critW 1704067200000 1735603200000
     (by decide) (by decide)⟩

/-! ## Claim C7: aggregation -/

/-- The rational carried by a finite `JsNum` (0 on the non-finite ones). -/
def ratOf : JsNum → ℚ
  | JsNum.num q => q
  | _ => 0

/-- Mathematical sum of the savings fields of a record list. -/
def sumSavings (l : List Idea) : ℚ := (l.map (fun i => ratOf i.savings)).sum

/-- Helper: the `reduce`-style fold computes the mathematical sum when all
savings are finite. -/
theorem foldl_jsAdd_sum (l : List Idea) (a : ℚ)
    (h : ∀ i ∈ l, ∃ q : ℚ, i.savings = JsNum.num q) :
    l.foldl (fun acc b => jsAdd acc b.savings) (JsNum.num a) =
      JsNum.num (a + sumSavings l) := by
  induction l generalizing a with
  | nil => simp [sumSavings]
  | cons i l ih =>
    obtain ⟨q, hq⟩ := h i (List.mem_cons_self i l)
    simp only [List.foldl_cons, hq]
    rw [show jsAdd (JsNum.num a) (JsNum.num q) = JsNum.num (a + q) from rfl]
    rw [ih (a + q) (fun j hj => h j (List.mem_cons_of_mem i hj))]
    simp only [sumSavings, List.map_cons, List.sum_cons, hq, ratOf]
    rw [add_assoc]

/-- C7: over any record list with finite savings, the dashboard's total is
the sum of the savings fields, and the mean is total over count, defined
as 0 on the empty list — in particular it is never `NaN`. -/
theorem claim7_aggregation (l : List Idea)
    (h : ∀ i ∈ l, ∃ q : ℚ, i.savings = JsNum.num q) :
    totalSavings l = JsNum.num (sumSavings l) ∧
    avgSavings l = JsNum.num (if l.length = 0 then 0 else sumSavings l / l.length) ∧
    avgSavings l ≠ JsNum.nan := by
  have ht : totalSavings l = JsNum.num (sumSavings l) := by
    unfold totalSavings
    rw [foldl_jsAdd_sum l 0 h, zero_add]
  have ha : avgSavings l =
      JsNum.num (if l.length = 0 then 0 else sumSavings l / l.length) := by
    by_cases hl : l.length = 0
    · simp [avgSavings, hl]
    · rw [if_neg hl]
      unfold avgSavings
      rw [if_pos hl, ht]
      have hcast : ((l.length : ℚ)) ≠ 0 := Nat.cast_ne_zero.mpr hl
      simp [jsDiv, hcast]
  exact ⟨ht, ha, by rw [ha]; exact fun hx => JsNum.noConfusion hx⟩

/-- Records with savings 200 and 300 for the C7 witness. -/
def ideaB : Idea := { ideaW with id := "S2", savings := JsNum.num 200 }

/-- Records with savings 200 and 300 for the C7 witness. -/
def ideaC : Idea := { ideaW with id := "S3", savings := JsNum.num 300 }

/-- The spec's `[100, 200, 300]` example list. -/
def ideas3 : List Idea := [ideaW, ideaB, ideaC]

/-- Witness for C7: savings `[100, 200, 300]` give total 600 and mean 200. -/
theorem claim7_witness :
    (∀ i ∈ ideas3, ∃ q : ℚ, i.savings = JsNum.num q) ∧
    totalSavings ideas3 = JsNum.num 600 ∧ avgSavings ideas3 = JsNum.num 200 := by
  have hyp : ∀ i ∈ ideas3, ∃ q : ℚ, i.savings = JsNum.num q := by
    intro i hi
    fin_cases hi <;> exact ⟨_, rfl⟩
  have h := claim7_aggregation ideas3 hyp
  refine ⟨hyp, ?_, ?_⟩
  · rw [h.1]
    norm_num [sumSavings, ideas3, ideaW, ideaB, ideaC, ratOf]
  · rw [h.2.1]
    norm_num [sumSavings, ideas3, ideaW, ideaB, ideaC, ratOf]

/-! ## Claim C9: savings validation parses a numeric head only -/

/-- Helper: a digit differs from any non-digit character. -/
theorem ne_of_digit {c : Char} (h : isDigitJS c = true) (d : Char)
    (hd : isDigitJS d = false) : c ≠ d := by
  intro he
  subst he
  rw [h] at hd
  cases hd

/-- Helper: a digit is not whitespace. -/
theorem digit_not_space {c : Char} (h : isDigitJS c = true) : isSpaceJS c = false := by
  simp only [isDigitJS, decide_eq_true_eq] at h
  cases hsp : isSpaceJS c with
  | false => rfl
  | true =>
    exfalso
    simp only [isSpaceJS, Bool.or_eq_true, decide_eq_true_eq] at hsp
    rcases hsp with ((((rfl | rfl) | rfl) | rfl) | rfl) | rfl <;> exact absurd h (by decide)

/-- Helper: `fracAndRest` at a non-dot head consumes nothing. -/
theorem fracAndRest_nondot (r : Char) (rs : List Char) (h : r ≠ '.') :
    fracAndRest (r :: rs) = ([], r :: rs) := by
  rw [fracAndRest.eq_def]
  split
  · next heq => exact absurd (List.head_eq_of_cons_eq heq) h
  · rfl

/-- Helper: `expAt` at a head that is neither `e` nor `E` is 0. -/
theorem expAt_other (r : Char) (rs : List Char) (h1 : r ≠ 'e') (h2 : r ≠ 'E') :
    expAt (r :: rs) = 0 := by
  rw [expAt.eq_def]
  split
  · next heq => exact absurd (List.head_eq_of_cons_eq heq) h1
  · next heq => exact absurd (List.head_eq_of_cons_eq heq) h2
  · rfl

/-- Helper: `signSplit` at a digit head consumes nothing. -/
theorem signSplit_digit (d : Char) (rest : List Char) (h : isDigitJS d = true) :
    signSplit (d :: rest) = (false, d :: rest) := by
  rw [signSplit.eq_def]
  split
  · next heq =>
    exact absurd (List.head_eq_of_cons_eq heq) (ne_of_digit h '+' (by decide))
  · next heq =>
    exact absurd (List.head_eq_of_cons_eq heq) (ne_of_digit h '-' (by decide))
  · rfl

/-- Helper: an `ite` with literal `true` Boolean condition picks the first
branch. -/
theorem ite_true_bool {α : Sort _} (a b : α) : (if (true : Bool) = true then a else b) = a := rfl

/-- Helper: `signSplit` consumes a leading plus sign. -/
theorem signSplit_plus (u : List Char) : signSplit ('+' :: u) = (false, u) := rfl

/-- Helper: `signSplit` consumes a leading minus sign. -/
theorem signSplit_minus (u : List Char) : signSplit ('-' :: u) = (true, u) := rfl

/-- Helper: `signSplit` at a signless head consumes nothing. -/
theorem signSplit_other (c : Char) (u : List Char) (h1 : c ≠ '+') (h2 : c ≠ '-') :
    signSplit (c :: u) = (false, c :: u) := by
  rw [signSplit.eq_def]
  split
  · next heq => exact absurd (List.head_eq_of_cons_eq heq) h1
  · next heq => exact absurd (List.head_eq_of_cons_eq heq) h2
  · rfl

/-- Helper: `fracAndRest` at a dot head takes the fractional digits. -/
theorem fracAndRest_dot (t : List Char) :
    fracAndRest ('.' :: t) = (t.takeWhile isDigitJS, t.dropWhile isDigitJS) := rfl

/-- Helper: `expOf` after a plus sign. -/
theorem expOf_plus (u : List Char) :
    expOf ('+' :: u) = (digitsVal (u.takeWhile isDigitJS) : Int) := rfl

/-- Helper: `expOf` after a minus sign. -/
theorem expOf_minus (u : List Char) :
    expOf ('-' :: u) = -(digitsVal (u.takeWhile isDigitJS) : Int) := rfl

/-- Helper: `expOf` at a signless head. -/
theorem expOf_other (c : Char) (u : List Char) (h1 : c ≠ '+') (h2 : c ≠ '-') :
    expOf (c :: u) = (digitsVal ((c :: u).takeWhile isDigitJS) : Int) := by
  rw [expOf.eq_def]
  split
  · next heq => exact absurd (List.head_eq_of_cons_eq heq) h1
  · next heq => exact absurd (List.head_eq_of_cons_eq heq) h2
  · rfl

/-- Helper: `expAt` sees a lowercase exponent marker. -/
theorem expAt_e (u : List Char) : expAt ('e' :: u) = expOf u := rfl

/-- Helper: `expAt` sees an uppercase exponent marker. -/
theorem expAt_E (u : List Char) : expAt ('E' :: u) = expOf u := rfl

/-- Helper: a scan stopped by the head of the appended text takes the same
characters as on the original list alone. -/
theorem takeWhile_append_stop (p : Char → Bool) (l : List Char) (r : Char) (rs : List Char)
    (hr : p r = false) : (l ++ r :: rs).takeWhile p = l.takeWhile p := by
  induction l with
  | nil =>
    rw [List.nil_append, List.takeWhile_nil]
    exact List.takeWhile_cons_of_neg (by simp [hr])
  | cons c t ih =>
    by_cases hc : p c = true
    · rw [List.cons_append, List.takeWhile_cons_of_pos hc, List.takeWhile_cons_of_pos hc, ih]
    · rw [List.cons_append, List.takeWhile_cons_of_neg hc, List.takeWhile_cons_of_neg hc]

/-- Helper: dropping stopped by the head of the appended text leaves the
appended text attached to the original remainder. -/
theorem dropWhile_append_stop (p : Char → Bool) (l : List Char) (r : Char) (rs : List Char)
    (hr : p r = false) : (l ++ r :: rs).dropWhile p = l.dropWhile p ++ r :: rs := by
  induction l with
  | nil =>
    rw [List.nil_append, List.dropWhile_nil, List.nil_append]
    exact List.dropWhile_cons_of_neg (by simp [hr])
  | cons c t ih =>
    by_cases hc : p c = true
    · rw [List.cons_append, List.dropWhile_cons_of_pos hc, List.dropWhile_cons_of_pos hc, ih]
    · rw [List.cons_append, List.dropWhile_cons_of_neg hc, List.dropWhile_cons_of_neg hc,
        List.cons_append]

/-- Helper: text whose head is neither a digit nor a sign does not change
an exponent-digits scan. -/
theorem expOf_append_stop (x : List Char) (r : Char) (rs : List Char)
    (hr : isDigitJS r = false) (hrp : r ≠ '+') (hrm : r ≠ '-') :
    expOf (x ++ r :: rs) = expOf x := by
  cases x with
  | nil =>
    rw [List.nil_append, expOf_other r rs hrp hrm,
      List.takeWhile_cons_of_neg (by simp [hr])]
    decide
  | cons c u =>
    by_cases hcp : c = '+'
    · subst hcp
      rw [List.cons_append, expOf_plus, expOf_plus, takeWhile_append_stop isDigitJS u r rs hr]
    · by_cases hcm : c = '-'
      · subst hcm
        rw [List.cons_append, expOf_minus, expOf_minus,
          takeWhile_append_stop isDigitJS u r rs hr]
      · rw [List.cons_append, expOf_other c (u ++ r :: rs) hcp hcm, expOf_other c u hcp hcm,
          ← List.cons_append, takeWhile_append_stop isDigitJS (c :: u) r rs hr]

/-- Helper: text whose head cannot open or continue an exponent part does
not change the exponent. -/
theorem expAt_append_stop (x : List Char) (r : Char) (rs : List Char)
    (hr : isDigitJS r = false) (hre : r ≠ 'e') (hrE : r ≠ 'E')
    (hrp : r ≠ '+') (hrm : r ≠ '-') :
    expAt (x ++ r :: rs) = expAt x := by
  cases x with
  | nil =>
    rw [List.nil_append, expAt_other r rs hre hrE]
    decide
  | cons c u =>
    by_cases hce : c = 'e'
    · subst hce
      rw [List.cons_append, expAt_e, expAt_e, expOf_append_stop u r rs hr hrp hrm]
    · by_cases hcE : c = 'E'
      · subst hcE
        rw [List.cons_append, expAt_E, expAt_E, expOf_append_stop u r rs hr hrp hrm]
      · rw [List.cons_append, expAt_other c (u ++ r :: rs) hce hcE, expAt_other c u hce hcE]

/-- Helper: `parseUnsigned` off the `Infinity` branch, assembled from its
integer digits, fractional part and following text. -/
theorem parseUnsigned_build (neg : Bool) (cs ip fp rest2 : List Char)
    (hinf : ¬ (cs.take 8 = "Infinity".data))
    (hip : cs.takeWhile isDigitJS = ip)
    (hfr : fracAndRest (cs.dropWhile isDigitJS) = (fp, rest2)) :
    parseUnsigned neg cs =
      (if ip.isEmpty && fp.isEmpty then JsNum.nan
       else
         let ex : Int := expAt rest2
         let m : Int := ((digitsVal ip * 10 ^ fp.length + digitsVal fp : ℕ) : Int)
         let m := if neg then -m else m
         if 0 ≤ ex then JsNum.num (mkRat (m * 10 ^ ex.toNat) (10 ^ fp.length))
         else JsNum.num (mkRat m (10 ^ fp.length * 10 ^ (-ex).toNat))) := by
  unfold parseUnsigned
  rw [if_neg hinf]
  simp only [hip, hfr]

/-- Helper: a parse that produced a finite value starts, after the sign,
with a digit or a decimal point. -/
theorem parseUnsigned_num_head (neg : Bool) (cs : List Char) (q : ℚ)
    (h : parseUnsigned neg cs = JsNum.num q) :
    ∃ c0 cs', cs = c0 :: cs' ∧ (isDigitJS c0 = true ∨ c0 = '.') := by
  rcases cs with _ | ⟨c0, cs'⟩
  · exfalso
    have hnan : parseUnsigned neg [] = JsNum.nan := by cases neg <;> decide
    rw [hnan] at h
    exact JsNum.noConfusion h
  · refine ⟨c0, cs', rfl, ?_⟩
    by_contra hcon
    push_neg at hcon
    have hnd : isDigitJS c0 = false := by
      cases h : isDigitJS c0 with
      | false => rfl
      | true => exact absurd h hcon.1
    have hndot : c0 ≠ '.' := hcon.2
    unfold parseUnsigned at h
    by_cases hinf : ((c0 :: cs').take 8 = "Infinity".data)
    · rw [if_pos hinf] at h
      cases neg <;> simp at h
    · rw [if_neg hinf] at h
      have e1 : (c0 :: cs').takeWhile isDigitJS = [] :=
        List.takeWhile_cons_of_neg (by simp [hnd])
      have e2 : (c0 :: cs').dropWhile isDigitJS = c0 :: cs' :=
        List.dropWhile_cons_of_neg (by simp [hnd])
      simp only [e1, e2, fracAndRest_nondot c0 cs' hndot] at h
      simp at h

/-- Helper: with a minus sign the parsed value is never positive. -/
theorem parseUnsigned_neg_nonpos (cs : List Char) (q : ℚ)
    (h : parseUnsigned true cs = JsNum.num q) : q ≤ 0 := by
  unfold parseUnsigned at h
  split at h
  · simp at h
  · dsimp only at h
    rw [ite_true_bool] at h
    split at h
    · simp at h
    · split at h
      · injection h with h
        rw [← h, neg_mul, ← Rat.neg_mkRat]
        exact neg_nonpos.mpr (Rat.mkRat_nonneg (by positivity) _)
      · injection h with h
        rw [← h, ← Rat.neg_mkRat]
        exact neg_nonpos.mpr (Rat.mkRat_nonneg (Int.natCast_nonneg _) _)

/-- Helper: when the input starts (after the sign) with a digit or a dot
and the appended text starts with a character that can extend no numeric
literal, the parse of the extended input is the parse of the original. -/
theorem parseUnsigned_append_stop (neg : Bool) (c0 : Char) (cs' rs : List Char) (r : Char)
    (hc0 : isDigitJS c0 = true ∨ c0 = '.')
    (hr1 : isDigitJS r = false) (hr2 : r ≠ '.') (hr3 : r ≠ 'e') (hr4 : r ≠ 'E')
    (hr5 : r ≠ '+') (hr6 : r ≠ '-') :
    parseUnsigned neg ((c0 :: cs') ++ r :: rs) = parseUnsigned neg (c0 :: cs') := by
  have hc0I : c0 ≠ 'I' := by
    rcases hc0 with h | h
    · exact ne_of_digit h 'I' (by decide)
    · subst h
      decide
  have hinf1 : ¬ (((c0 :: cs') ++ r :: rs).take 8 = "Infinity".data) := by
    intro hc
    rw [List.cons_append, List.take_succ_cons] at hc
    exact hc0I (List.head_eq_of_cons_eq hc)
  have hinf2 : ¬ ((c0 :: cs').take 8 = "Infinity".data) := by
    intro hc
    rw [List.take_succ_cons] at hc
    exact hc0I (List.head_eq_of_cons_eq hc)
  have hip : ((c0 :: cs') ++ r :: rs).takeWhile isDigitJS = (c0 :: cs').takeWhile isDigitJS :=
    takeWhile_append_stop isDigitJS (c0 :: cs') r rs hr1
  have hdw : ((c0 :: cs') ++ r :: rs).dropWhile isDigitJS =
      (c0 :: cs').dropWhile isDigitJS ++ r :: rs :=
    dropWhile_append_stop isDigitJS (c0 :: cs') r rs hr1
  rcases hD : (c0 :: cs').dropWhile isDigitJS with _ | ⟨c1, t1⟩
  · rw [hD, List.nil_append] at hdw
    rw [parseUnsigned_build neg ((c0 :: cs') ++ r :: rs) ((c0 :: cs').takeWhile isDigitJS)
        [] (r :: rs) hinf1 hip (by rw [hdw, fracAndRest_nondot r rs hr2]),
      parseUnsigned_build neg (c0 :: cs') ((c0 :: cs').takeWhile isDigitJS)
        [] [] hinf2 rfl (by rw [hD]; rfl)]
    simp only [expAt_other r rs hr3 hr4, show expAt ([] : List Char) = 0 from rfl]
  · by_cases hdot : c1 = '.'
    · subst hdot
      have hfr1 : fracAndRest (((c0 :: cs') ++ r :: rs).dropWhile isDigitJS) =
          (t1.takeWhile isDigitJS, t1.dropWhile isDigitJS ++ r :: rs) := by
        rw [hdw, hD, List.cons_append, fracAndRest_dot,
          takeWhile_append_stop isDigitJS t1 r rs hr1,
          dropWhile_append_stop isDigitJS t1 r rs hr1]
      have hfr2 : fracAndRest ((c0 :: cs').dropWhile isDigitJS) =
          (t1.takeWhile isDigitJS, t1.dropWhile isDigitJS) := by
        rw [hD, fracAndRest_dot]
      rw [parseUnsigned_build neg ((c0 :: cs') ++ r :: rs) ((c0 :: cs').takeWhile isDigitJS)
          (t1.takeWhile isDigitJS) (t1.dropWhile isDigitJS ++ r :: rs) hinf1 hip hfr1,
        parseUnsigned_build neg (c0 :: cs') ((c0 :: cs').takeWhile isDigitJS)
          (t1.takeWhile isDigitJS) (t1.dropWhile isDigitJS) hinf2 rfl hfr2]
      simp only [expAt_append_stop (t1.dropWhile isDigitJS) r rs hr1 hr3 hr4 hr5 hr6]
    · have hfr1 : fracAndRest (((c0 :: cs') ++ r :: rs).dropWhile isDigitJS) =
          ([], (c1 :: t1) ++ r :: rs) := by
        rw [hdw, hD, List.cons_append, fracAndRest_nondot c1 (t1 ++ r :: rs) hdot]
      have hfr2 : fracAndRest ((c0 :: cs').dropWhile isDigitJS) = ([], c1 :: t1) := by
        rw [hD, fracAndRest_nondot c1 t1 hdot]
      rw [parseUnsigned_build neg ((c0 :: cs') ++ r :: rs) ((c0 :: cs').takeWhile isDigitJS)
          [] ((c1 :: t1) ++ r :: rs) hinf1 hip hfr1,
        parseUnsigned_build neg (c0 :: cs') ((c0 :: cs').takeWhile isDigitJS)
          [] (c1 :: t1) hinf2 rfl hfr2]
      simp only [expAt_append_stop (c1 :: t1) r rs hr1 hr3 hr4 hr5 hr6]

/-- Helper, the numeric-head property of `parseFloat`: when a string
parses to a positive finite value, appending text whose first character is
not a digit, dot, exponent marker or sign leaves the parsed value
unchanged. -/
theorem parseFloatL_append_stop (p : List Char) (r : Char) (rs : List Char) (q : ℚ)
    (hp : parseFloatL p = JsNum.num q) (hq : 0 < q)
    (hr1 : isDigitJS r = false) (hr2 : r ≠ '.') (hr3 : r ≠ 'e') (hr4 : r ≠ 'E')
    (hr5 : r ≠ '+') (hr6 : r ≠ '-') :
    parseFloatL (p ++ r :: rs) = JsNum.num q := by
  unfold parseFloatL at hp ⊢
  rcases hD : p.dropWhile isSpaceJS with _ | ⟨c, t⟩
  · exfalso
    rw [hD] at hp
    have hnan : (let sr := signSplit ([] : List Char); parseUnsigned sr.1 sr.2) = JsNum.nan := by
      decide
    rw [hnan] at hp
    exact JsNum.noConfusion hp
  · have hDapp : (p ++ r :: rs).dropWhile isSpaceJS = (c :: t) ++ r :: rs := by
      rw [List.dropWhile_append, hD]
      simp
    rw [hD] at hp
    rw [hDapp, List.cons_append]
    by_cases hcp : c = '+'
    · subst hcp
      rw [signSplit_plus] at hp
      rw [signSplit_plus]
      dsimp only at hp ⊢
      obtain ⟨c0, t', ht, hc0⟩ := parseUnsigned_num_head false t q hp
      subst ht
      rw [parseUnsigned_append_stop false c0 t' rs r hc0 hr1 hr2 hr3 hr4 hr5 hr6]
      exact hp
    · by_cases hcm : c = '-'
      · exfalso
        subst hcm
        rw [signSplit_minus] at hp
        dsimp only at hp
        exact absurd hq (not_lt.mpr (parseUnsigned_neg_nonpos t q hp))
      · rw [signSplit_other c (t ++ r :: rs) hcp hcm]
        rw [signSplit_other c t hcp hcm] at hp
        dsimp only at hp ⊢
        obtain ⟨c0, t', ht, hc0⟩ := parseUnsigned_num_head false (c :: t) q hp
        have hc0' : isDigitJS c = true ∨ c = '.' := by
          injection ht with ha hb
          rw [ha]
          exact hc0
        rw [← List.cons_append,
          parseUnsigned_append_stop false c t rs r hc0' hr1 hr2 hr3 hr4 hr5 hr6]
        exact hp

/-- C9: a row whose total-savings cell, after `$`/`,` stripping, begins
with text that `parseFloat` reads as a positive finite number, followed by
text whose first character can extend no numeric literal (not a digit,
dot, exponent marker or sign — e.g. `100 USD`, `3.5 USD`, `1e3 USD`), is
accepted — provided its id and submit-date cells are present and valid —
and the record's savings is exactly the value of that numeric head. -/
theorem claim9_numeric_head_accepted (hs vs : List String) (i d s : String)
    (p rs : List Char) (r : Char) (t : Int) (q : ℚ)
    (h1 : rowGet hs vs "IDEA BANK ID" = some i) (h2 : jsTrimS i ≠ "")
    (h3 : rowGet hs vs "SUBMIT DATE" = some d) (h4 : parseDate (jsTrimS d) = some t)
    (h5 : rowGet hs vs "TOTAL SAVINGS" = some s)
    (h6 : (stripDollarComma (jsTrimS s)).data = p ++ r :: rs)
    (hp : parseFloat (String.mk p) = JsNum.num q) (hq : 0 < q)
    (hr1 : isDigitJS r = false) (hr2 : r ≠ '.') (hr3 : r ≠ 'e') (hr4 : r ≠ 'E')
    (hr5 : r ≠ '+') (hr6 : r ≠ '-') :
    ∃ rec : Idea, parseRow hs vs = some rec ∧ rec.savings = JsNum.num q := by
  have hsv : jsTrimS s ≠ "" := by
    intro hc
    have h0 : (stripDollarComma "").data = ([] : List Char) := rfl
    rw [hc, h0] at h6
    exact (List.cons_ne_nil r rs) (List.append_eq_nil.mp h6.symm).2
  have hpL : parseFloatL p = JsNum.num q := hp
  have hpf : parseFloat (stripDollarComma (jsTrimS s)) = JsNum.num q := by
    show parseFloatL (stripDollarComma (jsTrimS s)).data = JsNum.num q
    rw [h6]
    exact parseFloatL_append_stop p r rs q hpL hq hr1 hr2 hr3 hr4 hr5 hr6
  unfold parseRow parseRowFrom
  rw [h1, h3, h5]
  simp only [Option.map_some']
  rw [if_neg ?hblank]
  case hblank =>
    rintro (hc | hc | hc)
    · exact h2 hc
    · rw [hc] at h4
      rw [show parseDate "" = none from rfl] at h4
      exact Option.noConfusion h4
    · exact hsv hc
  rw [hpf]
  rw [if_neg ?hnum]
  case hnum =>
    rw [show jsIsNaN (JsNum.num q) = false from rfl,
      show jsLeZero (JsNum.num q) = decide (q ≤ 0) from rfl]
    simp only [Bool.false_or, decide_eq_true_eq]
    exact not_le.mpr hq
  rw [h4]
  exact ⟨_, rfl, rfl⟩

/-- Witness for C9: the rows with `TOTAL SAVINGS = "3.5 USD"` and
`TOTAL SAVINGS = "1e3 USD"` are accepted with savings 3.5 and 1000. -/
theorem claim9_witness :
    (∃ rec : Idea,
        parseRow ["IDEA BANK ID", "SUBMIT DATE", "TOTAL SAVINGS"]
            ["X1", "2024-03-01", "3.5 USD"] = some rec ∧
          rec.savings = JsNum.num (mkRat 35 10)) ∧
    (∃ rec : Idea,
        parseRow ["IDEA BANK ID", "SUBMIT DATE", "TOTAL SAVINGS"]
            ["X2", "2024-03-01", "1e3 USD"] = some rec ∧
          rec.savings = JsNum.num 1000) :=
  ⟨claim9_numeric_head_accepted
      ["IDEA BANK ID", "SUBMIT DATE", "TOTAL SAVINGS"]
      ["X1", "2024-03-01", "3.5 USD"]
      "X1" "2024-03-01" "3.5 USD" ['3', '.', '5'] ['U', 'S', 'D'] ' ' 1709251200000
      (mkRat 35 10)
      (by decide) (by decide) (by decide) (by decide) (by decide) (by decide)
      (by decide) (by decide) (by decide) (by decide) (by decide) (by decide)
      (by decide) (by decide),
   claim9_numeric_head_accepted
      ["IDEA BANK ID", "SUBMIT DATE", "TOTAL SAVINGS"]
      ["X2", "2024-03-01", "1e3 USD"]
      "X2" "2024-03-01" "1e3 USD" ['1', 'e', '3'] ['U', 'S', 'D'] ' ' 1709251200000
      1000
      (by decide) (by decide) (by decide) (by decide) (by decide) (by decide)
      (by decide) (by decide) (by decide) (by decide) (by decide) (by decide)
      (by decide) (by decide)⟩

/-! ## Claim C1: the parser output contract -/

/-- Helper: mapping rows to nullable records and then dropping the nulls
(the TS `.map(...).filter(item !== null)` shape) is `filterMap`. -/
theorem map_reduceOption_eq_filterMap {α β : Type} (l : List α) (f : α → Option β) :
    (l.map f).reduceOption = l.filterMap f := by
  show (l.map f).filterMap id = l.filterMap f
  rw [List.filterMap_map]
  rfl

/-- Helper: a successful `parseDate` returns the timestamp of a real
calendar date. -/
theorem parseDate_some (s : String) (t : Int) (h : parseDate s = some t) :
    ∃ y m d : Int, validYMD y m d = true ∧ t = epochMs y m d := by
  unfold parseDate at h
  split at h
  · split at h
    · dsimp only at h
      split at h
      · next hv =>
        injection h with h
        exact ⟨_, _, _, hv, h.symm⟩
      · exact Option.noConfusion h
    · exact Option.noConfusion h
  · exact Option.noConfusion h

/-- Helper: positivity as the surviving rows see it — a value that is
neither `NaN` nor `≤ 0` is strictly positive. -/
theorem jsPos_of_checks (v : JsNum) (h1 : jsIsNaN v = false) (h2 : jsLeZero v = false) :
    jsPos v = true := by
  cases v <;> simp_all [jsIsNaN, jsLeZero, jsPos, not_le, le_of_lt]

/-- Helper: every record produced by the row validator has a non-empty id,
a strictly positive savings value, and the timestamp of a real calendar
date. -/
theorem parseRowFrom_some_valid (get : String → Option String) (rec : Idea)
    (h : parseRowFrom get = some rec) :
    rec.id ≠ "" ∧ jsPos rec.savings = true ∧
      ∃ y m d : Int, validYMD y m d = true ∧ rec.date = epochMs y m d := by
  unfold parseRowFrom at h
  rcases hg1 : get "IDEA BANK ID" with _ | i <;> rw [hg1] at h
  · simp at h
  rcases hg2 : get "SUBMIT DATE" with _ | d <;> rw [hg2] at h
  · simp at h
  rcases hg3 : get "TOTAL SAVINGS" with _ | s <;> rw [hg3] at h
  · simp at h
  simp only [Option.map_some'] at h
  by_cases hc : (jsTrimS i = "" ∨ jsTrimS d = "" ∨ jsTrimS s = "")
  · rw [if_pos hc] at h
    exact Option.noConfusion h
  rw [if_neg hc] at h
  by_cases hn : (jsIsNaN (parseFloat (stripDollarComma (jsTrimS s))) ||
      jsLeZero (parseFloat (stripDollarComma (jsTrimS s)))) = true
  · rw [if_pos hn] at h
    exact Option.noConfusion h
  rw [if_neg hn] at h
  rcases hd : parseDate (jsTrimS d) with _ | t <;> rw [hd] at h
  · exact Option.noConfusion h
  injection h with h
  subst h
  rw [Bool.or_eq_true, not_or, Bool.not_eq_true, Bool.not_eq_true] at hn
  refine ⟨fun hid => hc (Or.inl hid), jsPos_of_checks _ hn.1 hn.2, ?_⟩
  obtain ⟨y, m, dd, hv, ht⟩ := parseDate_some _ _ hd
  exact ⟨y, m, dd, hv, ht⟩

/-- The spec's end-to-end example: a header line and three data rows, the
second of which lacks the `IDEA BANK ID` value. -/
def csvC1 : String :=
  "IDEA BANK ID,SUBMIT DATE,TOTAL SAVINGS\nA1,2024-03-01,100\n,2024-03-02,200\nA3,2024-03-03,300"

/-- C1: `processData` returns exactly the records of the data rows that
pass validation — the non-blank data lines mapped to nullable records with
the nulls dropped, preserving input row order; every returned record has a
non-empty id, a strictly positive savings value and a date that parsed as
a real calendar date; and the 3-row example CSV whose second row lacks
`IDEA BANK ID` yields exactly the records `A1`, `A3` in original order. -/
theorem claim1_parser_contract :
    (∀ csv : String, 2 ≤ (linesOf csv).length →
        processData csv =
          ((((linesOf csv).drop 1).filter (fun l => !(jsTrim l).isEmpty)).map
              (fun line => parseRow (headersOf csv) (tokenizeLine line))).reduceOption) ∧
    (∀ csv : String, ∀ i ∈ processData csv,
        i.id ≠ "" ∧ jsPos i.savings = true ∧
        ∃ y m d : Int, validYMD y m d = true ∧ i.date = epochMs y m d) ∧
    (processData csvC1).map Idea.id = ["A1", "A3"] := by
  refine ⟨?_, ?_, by decide⟩
  · intro csv h2
    unfold processData
    rw [if_neg (by omega), map_reduceOption_eq_filterMap]
  · intro csv i hi
    unfold processData at hi
    by_cases hlen : (linesOf csv).length < 2
    · rw [if_pos hlen] at hi
      exact absurd hi (List.not_mem_nil i)
    · rw [if_neg hlen] at hi
      obtain ⟨line, _, hsome⟩ := List.mem_filterMap.mp hi
      exact parseRowFrom_some_valid (rowGet (headersOf csv) (tokenizeLine line)) i hsome

/-- The first surviving record of the C1 example CSV. -/
def recA1 : Idea :=
  { id := "A1", title := "Untitled Project", subsystem := "Unknown",
    region := "Unknown", platform := "Unknown", plant := "Unknown",
    status := "Unknown", date := 1709251200000,
    submitter := "system@enterprise.com", scopingLeader := "Unknown",
    savings := JsNum.num 100, link := "" }

/-- Witness for C1 at the example CSV and its first surviving record. -/
theorem claim1_witness :
    (2 ≤ (linesOf csvC1).length ∧
      processData csvC1 =
        ((((linesOf csvC1).drop 1).filter (fun l => !(jsTrim l).isEmpty)).map
            (fun line => parseRow (headersOf csvC1) (tokenizeLine line))).reduceOption) ∧
    (recA1 ∈ processData csvC1 ∧ recA1.id ≠ "") := by
  have hmem : recA1 ∈ processData csvC1 := by decide
  exact ⟨⟨by decide, claim1_parser_contract.1 csvC1 (by decide)⟩,
    ⟨hmem, (claim1_parser_contract.2.1 csvC1 recA1 hmem).1⟩⟩

/-! ## Claim C4: is the final capitalization pass a no-op?

It is not, in general: a word containing an internal non-word character
(such as `-`) exposes an extra `\b\w` boundary, so `foo-bar` normalizes
to `Foo-Bar` with the pass and to `Foo-bar` without it.  The pass *is* a
no-op on inputs made of ASCII letters, spaces and slashes only, where the
split leaves words of letters whose first letter the first pass already
uppercased. -/

/-- The lowercase ASCII letters. -/
def lowAlphaChars : List Char := (List.range 26).map (fun i => Char.ofNat (97 + i))

/-- ASCII letters, space and slash: the alphabet on which the final pass
is a no-op. -/
def plainChars : List Char :=
  lowAlphaChars ++ (List.range 26).map (fun i => Char.ofNat (65 + i)) ++ [' ', '/']

/-- Character facts about lowercase letters, checked by evaluation. -/
theorem lowAlpha_facts :
    ∀ c ∈ lowAlphaChars, wordChar c = true ∧ wordChar (upperChar c) = true ∧
      upperChar (upperChar c) = upperChar c ∧ isSepWS c = false := by
  decide

/-- Lowercasing a plain character gives a lowercase letter, a space or a
slash. -/
theorem plain_lowerChar :
    ∀ c ∈ plainChars, lowerChar c ∈ lowAlphaChars ∨ lowerChar c = ' ' ∨ lowerChar c = '/' := by
  decide

/-- Trimming only removes characters. -/
theorem jsTrim_subset (cs : List Char) : ∀ c ∈ jsTrim cs, c ∈ cs := by
  intro c hc
  unfold jsTrim at hc
  rw [List.mem_reverse] at hc
  have h1 := List.dropWhile_subset isSpaceJS hc
  rw [List.mem_reverse] at h1
  exact List.dropWhile_subset isSpaceJS h1

/-- Characters of the pieces produced by the run-splitting scan: they all
fail the separator test and come from the accumulator or the input. -/
theorem splitRunsGo_mem (sep : Char → Bool) (cs : List Char) :
    ∀ (b : Bool) (cur : List Char), (∀ x ∈ cur, sep x = false) →
      ∀ w ∈ splitRunsGo sep b cur cs, ∀ c ∈ w, sep c = false ∧ (c ∈ cur ∨ c ∈ cs) := by
  induction cs with
  | nil =>
    intro b cur hcur w hw c hc
    simp only [splitRunsGo, List.mem_singleton] at hw
    subst hw
    rw [List.mem_reverse] at hc
    exact ⟨hcur c hc, Or.inl hc⟩
  | cons d ds ih =>
    intro b cur hcur w hw c hc
    by_cases hd : sep d = true
    · simp only [splitRunsGo, hd, if_true] at hw
      cases b with
      | true =>
        simp only [if_true] at hw
        obtain ⟨hsep, hin⟩ := ih true cur hcur w hw c hc
        exact ⟨hsep, hin.imp_right (List.mem_cons_of_mem d)⟩
      | false =>
        simp only [Bool.false_eq_true, if_false] at hw
        rcases List.mem_cons.mp hw with rfl | hw2
        · rw [List.mem_reverse] at hc
          exact ⟨hcur c hc, Or.inl hc⟩
        · obtain ⟨hsep, hin⟩ := ih true [] (by intro x hx; cases hx) w hw2 c hc
          rcases hin with hin | hin
          · cases hin
          · exact ⟨hsep, Or.inr (List.mem_cons_of_mem d hin)⟩
    · have hd' : sep d = false := by revert hd; cases sep d <;> simp
      simp only [splitRunsGo, hd', Bool.false_eq_true, if_false] at hw
      have hcur' : ∀ x ∈ d :: cur, sep x = false := by
        intro x hx
        rcases List.mem_cons.mp hx with rfl | hx
        · exact hd'
        · exact hcur x hx
      obtain ⟨hsep, hin⟩ := ih false (d :: cur) hcur' w hw c hc
      rcases hin with hin | hin
      · rcases List.mem_cons.mp hin with rfl | hin
        · exact ⟨hsep, Or.inr (List.mem_cons_self c ds)⟩
        · exact ⟨hsep, Or.inl hin⟩
      · exact ⟨hsep, Or.inr (List.mem_cons_of_mem d hin)⟩

/-- The boundary pass off a boundary walks through word characters
unchanged. -/
theorem boundaryUpGo_word (ds rest : List Char) (hds : ∀ c ∈ ds, wordChar c = true) :
    boundaryUpGo false (ds ++ rest) = ds ++ boundaryUpGo false rest := by
  induction ds with
  | nil => rfl
  | cons c cs ih =>
    have hc := hds c (List.mem_cons_self c cs)
    simp only [List.cons_append, boundaryUpGo, hc, Bool.and_false, Bool.false_eq_true,
      if_false, Bool.not_true]
    exact congrArg (c :: ·) (ih (fun x hx => hds x (List.mem_cons_of_mem c hx)))

/-- The boundary pass at a boundary leaves a capitalized all-letter word
unchanged and proceeds off-boundary exactly when the word was nonempty. -/
theorem boundaryUpGo_capFirst (w rest : List Char) (hw : ∀ c ∈ w, c ∈ lowAlphaChars) :
    boundaryUpGo true (capFirst w ++ rest) =
      capFirst w ++ boundaryUpGo (if w = [] then true else false) rest := by
  cases w with
  | nil => simp [capFirst]
  | cons c cs =>
    obtain ⟨-, hw2, hw3, -⟩ := lowAlpha_facts c (hw c (List.mem_cons_self c cs))
    have hcs : ∀ x ∈ cs, wordChar x = true := by
      intro x hx
      exact (lowAlpha_facts x (hw x (List.mem_cons_of_mem c hx))).1
    simp only [capFirst, List.cons_append, boundaryUpGo, hw2, Bool.and_true, if_true,
      hw3, Bool.not_true, List.cons_ne_nil, if_false]
    exact congrArg (upperChar c :: ·) (boundaryUpGo_word cs rest hcs)

/-- The boundary pass is the identity on a space-joined list of
capitalized all-letter words. -/
theorem boundaryUp_join (ws : List (List Char))
    (hws : ∀ w ∈ ws, ∀ c ∈ w, c ∈ lowAlphaChars) :
    boundaryUp (joinSpaces (ws.map capFirst)) = joinSpaces (ws.map capFirst) := by
  unfold boundaryUp
  induction ws with
  | nil => rfl
  | cons w ws ih =>
    cases ws with
    | nil =>
      show boundaryUpGo true (joinSpaces [capFirst w]) = joinSpaces [capFirst w]
      have h := boundaryUpGo_capFirst w [] (hws w (List.mem_cons_self w []))
      simpa [joinSpaces, boundaryUpGo] using h
    | cons w2 ws2 =>
      have hstep : joinSpaces ((w :: w2 :: ws2).map capFirst) =
          capFirst w ++ ' ' :: joinSpaces ((w2 :: ws2).map capFirst) := rfl
      rw [hstep, boundaryUpGo_capFirst w (' ' :: joinSpaces ((w2 :: ws2).map capFirst))
        (hws w (List.mem_cons_self w (w2 :: ws2)))]
      have hspace : ∀ b, boundaryUpGo b (' ' :: joinSpaces ((w2 :: ws2).map capFirst)) =
          ' ' :: boundaryUpGo true (joinSpaces ((w2 :: ws2).map capFirst)) := by
        intro b
        simp [boundaryUpGo, wordChar]
      rw [hspace, ih (fun x hx c hc => hws x (List.mem_cons_of_mem w hx) c hc)]

/-- C4 (counterexample to the claim as stated): on `foo-bar` the
normalization with the final pass yields `Foo-Bar` while without it the
result is `Foo-bar`, so the pass is not a no-op for every input. -/
theorem claim4_counterexample :
    jsNormalize (some "foo-bar") ≠ jsNormalizeNoFinal (some "foo-bar") := by
  decide

/-- C4 (amended): the final word-boundary capitalization pass is a no-op
on every input consisting only of ASCII letters, spaces and slashes;
it is not a no-op in general — an input whose word carries an internal
non-word character (such as `foo-bar`) gains extra uppercased letters
from the pass. -/
theorem claim4_noop_on_plain_inputs (s : String)
    (h : ∀ c ∈ s.data, c ∈ plainChars) :
    jsNormalize (some s) = jsNormalizeNoFinal (some s) := by
  simp only [jsNormalize, jsNormalizeNoFinal]
  by_cases h0 : s = ""
  · rw [if_pos h0, if_pos h0]
  rw [if_neg h0, if_neg h0]
  by_cases h1 : jsTrim s.data = []
  · simp [h1]
  simp only [h1, if_false]
  congr 1
  apply boundaryUp_join
  intro w hwmem c hcmem
  obtain ⟨hsep, hin⟩ := splitRunsGo_mem isSepWS ((jsTrim s.data).map lowerChar) false []
    (by intro x hx; cases hx) w hwmem c hcmem
  rcases hin with hin | hin
  · cases hin
  obtain ⟨c0, hc0, rfl⟩ := List.mem_map.mp hin
  have hplain : c0 ∈ plainChars := h c0 (jsTrim_subset s.data c0 hc0)
  rcases plain_lowerChar c0 hplain with hl | hl | hl
  · exact hl
  · rw [hl] at hsep
    exact absurd hsep (by decide)
  · rw [hl] at hsep
    exact absurd hsep (by decide)

/-- Witness for C4 at a plain-alphabet input. -/
theorem claim4_witness :
    (∀ c ∈ "chassis system/body".data, c ∈ plainChars) ∧
    jsNormalize (some "chassis system/body") = jsNormalizeNoFinal (some "chassis system/body") :=
  ⟨by decide, claim4_noop_on_plain_inputs "chassis system/body" (by decide)⟩
